import Mathlib

/-!
Shallow embedding of the WorkWitch game (src/game.py, src/assets.py, src/play.py).

Python `Item.__eq__` and `Item.__lt__` compare items by their `name` attribute
only (game.py lines 358-374), so every comparison the program performs on items
(recipe lookup in `mix`, the `used` membership test in `create_book`,
`list.remove` in `trash`/`deliver_order`/`create_map`) is a comparison of name
strings.  Accordingly an ingredient reference inside a recipe is represented by
the ingredient's name.

Randomness (`random.choice`, `random.randint`, `random.randrange`) is modelled
by threading explicit streams of natural numbers: a draw with stream value `r`
from a pool of size `n` picks index `r % n`, which ranges over exactly the
outcomes the Python call can produce.  A rejection loop (`while draw in used:`
in `create_book`, `while selected_loc.name == "Cauldron":` in `create_map`) is
modelled by its result: a draw from the candidates that satisfy the loop's exit
condition, which is the exact set of values the loop can terminate with.
Operations that can raise a Python exception (`list.remove` on a missing
element, `pop()` on an empty list, indexing out of range, `random.choice` on an
empty sequence, the unbound-variable fall-through in customer creation) return
`Option`, with `none` marking the exceptional run.  Wall-clock times
(`time.time()`) are modelled as exact rationals.
-/

namespace WorkWitch

/-- assets.py MAP_SETUP: location name to (direction to neighbor name). -/
def MAP_SETUP : List (String × List (String × String)) :=
  [("Swamp", [("E", "Forest")]),
   ("Forest", [("W", "Swamp"), ("S", "Cauldron"), ("E", "Town")]),
   ("Cauldron", [("N", "Forest")]),
   ("Town", [("W", "Forest"), ("N", "Cave"), ("E", "Graveyard")]),
   ("Cave", [("S", "Town")]),
   ("Graveyard", [("W", "Town")])]

/-- assets.py CHAPTER_TITLES. -/
def CHAPTER_TITLES : List (String × String) :=
  [("0", "Wounds"), ("1", "Ailments"), ("2", "Curses"), ("3", "Hauntings")]

/-- assets.py ITEMS_BY_INGREDIENTS: difficulty tier to item names, in the
Python dict's insertion order (FOUND, BASIC, INTERMEDIATE, ADVANCED). -/
def ITEMS_BY_INGREDIENTS : List (String × List String) :=
  [("FOUND", ["Purple Mushroom", "Forget-Me-Not", "Firefly", "Mandrake Root",
              "Green Mushroom", "Spring Water", "Red Mushroom", "Glow Worm", "Skull"]),
   ("BASIC", ["Goodberry", "Antidote", "Evil Eye"]),
   ("INTERMEDIATE", ["Health Potion", "Awakening", "Amulet"]),
   ("ADVANCED", ["Banishing Sigil", "Substitute Doll"])]

/-- Association-list lookup, modelling Python dict indexing `d[k]`. -/
def lookupA {α : Type} (l : List (String × α)) (k : String) : Option α :=
  match l with
  | [] => none
  | (k', v) :: rest => if k' = k then some v else lookupA rest k

/-- game.py Item: `name`, and for craftable items the recipe's ingredient
names (Python stores Item references, but all comparisons use names). -/
structure Item where
  name : String
  recipe : Option (List String)
deriving DecidableEq, Repr, Inhabited

/-- game.py Location: name, optional item list (None for the Cauldron),
neighbors dict. -/
structure Location where
  name : String
  items : Option (List Item)
  neighbors : List (String × String)
deriving DecidableEq, Repr, Inhabited

/-- game.py RecipeBook. -/
structure RecipeBook where
  chapters : List String
  titles : List String
  recipes : List Item
deriving DecidableEq, Repr, Inhabited

/-- game.py Customer.  `name` is the slot index (an int in the source);
`waittime` and `maketime` are wall-clock quantities, modelled as rationals. -/
structure Customer where
  name : Nat
  order : Item
  points : Nat
  waittime : Rat
  maketime : Rat
deriving DecidableEq, Repr

/-- game.py Player (the `completed` record is never read by the program). -/
structure Player where
  location : Location
  inventory : List Item
  score : Nat
deriving DecidableEq, Repr

/-- game.py Game: the aggregate session state. -/
structure GameState where
  locations : List Location
  book : RecipeBook
  player : Player
  customers : List Customer
deriving DecidableEq, Repr

/-- Python `item in used` for item lists: membership by name equality. -/
def memName (n : String) (l : List Item) : Bool :=
  l.any fun x => x.name = n

/-- Python `list.remove(item)` on an item list: drop the first name-equal
element; `none` models the ValueError when no element matches. -/
def removeItem (item : Item) : List Item → Option (List Item)
  | [] => none
  | x :: xs =>
      if x.name = item.name then some xs
      else (removeItem item xs).map (fun ys => x :: ys)

/-- Total variant of `list.remove` used where the element is present by
construction (`create_map` removes the item it just drew from the pool). -/
def removeName (n : String) : List Item → List Item
  | [] => []
  | x :: xs => if x.name = n then xs else x :: removeName n xs

/-- Lexicographic comparison of Unicode code-point sequences, the order
Python uses to compare strings. -/
def charListLe : List Char → List Char → Bool
  | [], _ => true
  | _ :: _, [] => false
  | a :: as, b :: bs =>
      if a.toNat < b.toNat then true
      else if b.toNat < a.toNat then false
      else charListLe as bs

/-- The string order underlying game.py Item.__lt__. -/
def strLeRel (a b : String) : Prop :=
  charListLe a.data b.data = true

instance : DecidableRel strLeRel :=
  fun a b => inferInstanceAs (Decidable (charListLe a.data b.data = true))

/-- Python `sorted` on a list of Items reduced to names: item ordering is
lexicographic on names (game.py `__lt__`), and Python sorting is stable, as
insertion sort is. -/
def sortS (l : List String) : List String :=
  List.insertionSort strLeRel l

/-- game.py Game.get_location: `[l for l in locations if l.name == n].pop()`;
`pop()` takes the last match, `none` models the IndexError on no match. -/
def get_location (locations : List Location) (n : String) : Option Location :=
  (locations.filter fun l => l.name = n).getLast?

/-- game.py Game.get_item, same shape as get_location. -/
def get_item (book : RecipeBook) (n : String) : Option Item :=
  (book.recipes.filter fun i => i.name = n).getLast?

/-- game.py Player.move: if the direction is a key of the current location's
neighbors, relocate to the named location; otherwise do nothing. -/
def move (locations : List Location) (p : Player) (direction : String) :
    Option Player :=
  match lookupA p.location.neighbors direction with
  | none => some p
  | some nxt => (get_location locations nxt).map fun l => { p with location := l }

/-- game.py Player.pickup: append a deep copy of the item to the inventory
(value semantics; nothing else in the state is touched). -/
def pickup (g : GameState) (item : Item) : GameState :=
  { g with player := { g.player with inventory := g.player.inventory ++ [item] } }

/-- game.py Player.trash: `inventory.remove(item)`. -/
def trash (g : GameState) (item : Item) : Option GameState :=
  (removeItem item g.player.inventory).map fun inv =>
    { g with player := { g.player with inventory := inv } }

/-- The loop body of game.py Player.mix, iterating over `recipebook.recipes`
with the precomputed sort key of the ingredient names. -/
def mixGo (key : List String) : List Item → Option Item
  | [] => none
  | it :: rest =>
      match it.recipe with
      | none => mixGo key rest
      | some r => if sortS r = key then some it else mixGo key rest

/-- game.py Player.mix: return the first item whose recipe, compared as a
sorted list (Python `sorted(ingredients) == sorted(item.recipe)`), matches the
ingredient list; `none` if no recipe matches. -/
def mix (book : RecipeBook) (ingredients : List Item) : Option Item :=
  mixGo (sortS (ingredients.map Item.name)) book.recipes

/-- Names of the given tier in assets.ITEMS_BY_INGREDIENTS. -/
def tierNames (level : String) : List String :=
  (lookupA ITEMS_BY_INGREDIENTS level).getD []

/-- Index of the tier containing a name, for a given tiers table. -/
def tierOf (tiers : List (String × List String)) (n : String) : Option Nat :=
  tiers.findIdx? fun t => t.2.contains n

/-- Shared customer-spawning logic of game.py Game.create_customers (lines
507-522) and Game.update_customer (lines 533-546): draw a random craftable
order, then assign points and waittime by tier membership.  `rOrder`, `rP`,
`rW` are the random draws; `now` is `time.time()`.  `none` models the
crash on an empty order pool or on an order name in no tier (in Python the
latter leaves `points`/`waittime` unbound). -/
def spawnCustomer (book : RecipeBook) (name : Nat) (rOrder rP rW : Nat)
    (now : Rat) : Option Customer :=
  let possible := book.recipes.filter fun i => !i.recipe.isNone
  match possible with
  | [] => none
  | _ =>
    let order := possible.getD (rOrder % possible.length) default
    if (tierNames "BASIC").contains order.name then
      some ⟨name, order, 5 + rP % 6, ((45 + 5 * (rW % 6) : Nat) : Rat), now⟩
    else if (tierNames "INTERMEDIATE").contains order.name then
      some ⟨name, order, 10 + rP % 21, ((60 + 5 * (rW % 12) : Nat) : Rat), now⟩
    else if (tierNames "ADVANCED").contains order.name then
      some ⟨name, order, 30 + rP % 46, ((120 + 10 * (rW % 6) : Nat) : Rat), now⟩
    else none

/-- game.py Game.create_customers: spawn `number` customers named 0,1,...;
the i-th uses the i-th triple of random draws. -/
def create_customers (book : RecipeBook) (number : Nat)
    (draws : Nat → Nat × Nat × Nat) (now : Rat) : Option (List Customer) :=
  (List.range number).foldl
    (fun acc i => acc.bind fun cs =>
      (spawnCustomer book i (draws i).1 (draws i).2.1 (draws i).2.2 now).map
        fun c => cs ++ [c])
    (some [])

/-- game.py Game.update_customer: build a replacement customer for the same
slot and write it at index `int(customer.name)`; `none` models the IndexError
on an out-of-range slot. -/
def update_customer (book : RecipeBook) (customers : List Customer)
    (customer : Customer) (rOrder rP rW : Nat) (now : Rat) :
    Option (List Customer) :=
  (spawnCustomer book customer.name rOrder rP rW now).bind fun nc =>
    if customer.name < customers.length then some (customers.set customer.name nc)
    else none

/-- game.py Player.deliver_order: remove the item from the inventory, add the
customer's points to the score when the item name matches the order name, and
replace the customer slot via update_customer. -/
def deliver_order (book : RecipeBook) (p : Player) (customers : List Customer)
    (item : Item) (customer : Customer) (rOrder rP rW : Nat) (now : Rat) :
    Option (Player × List Customer) :=
  (removeItem item p.inventory).bind fun inv =>
    let score' := if item.name = customer.order.name
      then p.score + customer.points else p.score
    (update_customer book customers customer rOrder rP rW now).map fun cs =>
      ({ p with inventory := inv, score := score' }, cs)

/-- game.py Customer.time_remaining: `waittime - (time.time() - maketime)`. -/
def time_remaining (c : Customer) (now : Rat) : Rat :=
  c.waittime - (now - c.maketime)

/-- One draw of game.py create_book lines 483-490: pick a uniformly random
element of `recipes` that is not yet in `used` (the `while draw in used:`
rejection loop is modelled by its result); `none` models the loop never
terminating because every element of `recipes` is used. -/
def drawIngredient (recipes used : List Item) (r : Nat) : Option Item :=
  let avail := recipes.filter fun x => !memName x.name used
  match avail with
  | [] => none
  | _ => some (avail.getD (r % avail.length) default)

/-- game.py create_book lines 477-492 for one craftable item: two ingredient
draws, each appended to `used`, then the new Item. -/
def genItem (name : String) (recipes used : List Item) (r1 r2 : Nat) :
    Option (Item × List Item) :=
  (drawIngredient recipes used r1).bind fun d1 =>
    (drawIngredient recipes (used ++ [d1]) r2).map fun d2 =>
      (⟨name, some [d1.name, d2.name]⟩, used ++ [d1, d2])

/-- game.py create_book: the inner `for name in item` loop of one non-FOUND
tier; each generated item is appended to `recipes` before the next name is
processed.  The stream `rs` supplies the random draws two at a time. -/
def genTier (names : List String) (recipes used : List Item) (rs : List Nat) :
    Option (List Item × List Item × List Nat) :=
  match names with
  | [] => some (recipes, used, rs)
  | name :: rest =>
      (genItem name recipes used (rs.headD 0) (rs.tail.headD 0)).bind
        fun iu => genTier rest (recipes ++ [iu.1]) iu.2 rs.tail.tail

/-- game.py create_book lines 470-492: the outer loop over the tiers table.
FOUND names become recipe-less items; other tiers go through genTier. -/
def buildTiers (tiers : List (String × List String)) (recipes used : List Item)
    (rs : List Nat) : Option (List Item × List Item × List Nat) :=
  match tiers with
  | [] => some (recipes, used, rs)
  | (level, names) :: rest =>
      if level = "FOUND" then
        buildTiers rest (recipes ++ names.map fun n => ⟨n, none⟩) used rs
      else
        (genTier names recipes used rs).bind fun ru =>
          buildTiers rest ru.1 ru.2.1 ru.2.2

/-- game.py Game.create_book, parameterized by the tiers table (the source
reads the global assets.ITEMS_BY_INGREDIENTS) and the random stream. -/
def create_book (tiers : List (String × List String)) (rs : List Nat) :
    Option RecipeBook :=
  let chapters := CHAPTER_TITLES.map Prod.fst
  let titles := CHAPTER_TITLES.map Prod.snd
  (buildTiers tiers [] [] rs).map fun ru => ⟨chapters, titles, ru.1⟩

/-- The found-tier items of a book: `[x for x in book.recipes if x.recipe is None]`. -/
def foundItems (book : RecipeBook) : List Item :=
  book.recipes.filter fun x => x.recipe.isNone

/-- The location list built at the top of game.py Game.create_map. -/
def LOC_NAMES : List String :=
  ["Cauldron", "Swamp", "Forest", "Town", "Cave", "Graveyard"]

/-- One `random.choice(found_items)` followed by `found_items.remove(...)`
(game.py create_map lines 432-434 and 447-451); `none` models the IndexError
of `random.choice` on an empty pool. -/
def drawItem (pool : List Item) (r : Nat) : Option (Item × List Item) :=
  match pool with
  | [] => none
  | _ :: _ =>
      let it := pool.getD (r % pool.length) default
      some (it, removeName it.name pool)

/-- `items_per_loc` consecutive draws for one location. -/
def drawItems : Nat → List Item → List Nat → Option (List Item × List Item × List Nat)
  | 0, pool, rs => some ([], pool, rs)
  | n + 1, pool, rs =>
      (drawItem pool (rs.headD 0)).bind fun ip =>
        (drawItems n ip.2 rs.tail).map fun tp =>
          (ip.1 :: tp.1, tp.2.1, tp.2.2)

/-- game.py create_map lines 420-436: walk the location list, attach the
MAP_SETUP neighbors, skip the Cauldron (its items stay None), and give every
other location `perLoc` randomly drawn items. -/
def fillLocations (names : List String) (pool : List Item) (rs : List Nat)
    (perLoc : Nat) : Option (List Location × List Item × List Nat) :=
  match names with
  | [] => some ([], pool, rs)
  | n :: rest =>
      let nb := (lookupA MAP_SETUP n).getD []
      if n = "Cauldron" then
        (fillLocations rest pool rs perLoc).map fun lp =>
          (⟨n, none, nb⟩ :: lp.1, lp.2.1, lp.2.2)
      else
        (drawItems perLoc pool rs).bind fun tp =>
          (fillLocations rest tp.2.1 tp.2.2 perLoc).map fun lp =>
            (⟨n, some tp.1, nb⟩ :: lp.1, lp.2.1, lp.2.2)

/-- Append a freshly drawn item to a location's item list (the location is
never the Cauldron, whose items are None). -/
def addItemTo (it : Item) (loc : Location) : Location :=
  { loc with items := some (loc.items.getD [] ++ [it]) }

/-- game.py create_map lines 440-451: distribute the leftover items.  The
`while selected_loc.name == "Cauldron":` rejection loop is modelled by its
result, a uniformly random non-Cauldron position of the six-location list
(index `1 + r % 5`). -/
def placeLeftovers : Nat → List Location → List Item → List Nat → List Nat →
    Option (List Location)
  | 0, locs, _, _, _ => some locs
  | n + 1, locs, pool, rl, ri =>
      let j := 1 + rl.headD 0 % 5
      (drawItem pool (ri.headD 0)).bind fun ip =>
        placeLeftovers n (locs.set j (addItemTo ip.1 (locs.getD j default)))
          ip.2 rl.tail ri.tail

/-- game.py Game.create_map: even distribution of the found items over the
five non-Cauldron locations, then random placement of the remainder.  `ri`
feeds the item draws, `rl` the leftover location draws. -/
def create_map (book : RecipeBook) (ri rl : List Nat) : Option (List Location) :=
  let found := foundItems book
  let perLoc := found.length / (LOC_NAMES.length - 1)
  let leftover := found.length % (LOC_NAMES.length - 1)
  (fillLocations LOC_NAMES found ri perLoc).bind fun lp =>
    placeLeftovers leftover lp.1 lp.2.1 rl lp.2.2

/-- All items currently placed on a map (the Cauldron contributes nothing). -/
def joinItems (locs : List Location) : List Item :=
  (locs.map fun l => l.items.getD []).flatten

/-- All ingredient references of a book, as one list of names with
multiplicity. -/
def allIngredients (book : RecipeBook) : List String :=
  (book.recipes.filterMap Item.recipe).flatten

/-- The book generated from the actual asset tables with the all-zero random
stream, used as a concrete instance. -/
def book0 : RecipeBook := (create_book ITEMS_BY_INGREDIENTS []).getD default

/-- The map generated from book0 with all-zero random streams, a concrete
instance of the session's location list. -/
def gameLocations : List Location := (create_map book0 [] []).getD []

/-- The Swamp location of the concrete map. -/
def swampLoc : Location := (get_location gameLocations "Swamp").getD default

/-- The Forest location of the concrete map. -/
def forestLoc : Location := (get_location gameLocations "Forest").getD default

/-- A player standing in the Swamp of the concrete map. -/
def playerSwamp : Player := ⟨swampLoc, [], 0⟩

/-- Python `list.count`-style count of inventory entries equal (by name,
which is Item equality) to a given name. -/
def countName (n : String) (l : List Item) : Nat :=
  l.countP fun x => x.name = n

/-- All ingredient references of a recipes list, as names with multiplicity. -/
def ingNames (recipes : List Item) : List String :=
  (recipes.filterMap Item.recipe).flatten

/-- Whether the tier of name `a` strictly precedes the tier of name `b` in
the actual asset tables (false as well when either name has no tier). -/
def strictTier (a b : String) : Bool :=
  match tierOf ITEMS_BY_INGREDIENTS a, tierOf ITEMS_BY_INGREDIENTS b with
  | some i, some j => i < j
  | _, _ => false

/-- One item satisfies the strict-tier property of claim C1: a craftable item
has exactly 2 ingredients, each from a strictly earlier tier. -/
def strictTierItem (it : Item) : Bool :=
  match it.recipe with
  | none => true
  | some l => l.length == 2 && l.all fun n => strictTier n it.name

/-- The strict-tier property of claim C1, stated for a whole book. -/
def StrictTierBook (book : RecipeBook) : Prop :=
  ∀ it ∈ book.recipes, strictTierItem it = true

instance (book : RecipeBook) : Decidable (StrictTierBook book) :=
  inferInstanceAs (Decidable (∀ it ∈ book.recipes, strictTierItem it = true))

/-- The hypothetical tier lists of the concrete scenario in claim C2. -/
def SCENARIO_TIERS : List (String × List String) :=
  [("FOUND", ["A", "B", "C", "D"]), ("BASIC", ["E"])]

/-- The found-tier items created by the FOUND step of create_book on the
actual asset tables. -/
def foundRecipes : List Item :=
  [⟨"Purple Mushroom", none⟩, ⟨"Forget-Me-Not", none⟩, ⟨"Firefly", none⟩,
   ⟨"Mandrake Root", none⟩, ⟨"Green Mushroom", none⟩, ⟨"Spring Water", none⟩,
   ⟨"Red Mushroom", none⟩, ⟨"Glow Worm", none⟩, ⟨"Skull", none⟩]

/-! ### Sorting: Python `sorted` comparison is multiset comparison -/

theorem charListLe_total : ∀ as bs, charListLe as bs = true ∨ charListLe bs as = true
  | [], _ => Or.inl rfl
  | _ :: _, [] => Or.inr rfl
  | a :: as, b :: bs => by
    simp only [charListLe]
    rcases Nat.lt_trichotomy a.toNat b.toNat with h | h | h
    · left; simp [h]
    · have h1 : ¬ a.toNat < b.toNat := by omega
      have h2 : ¬ b.toNat < a.toNat := by omega
      simp only [if_neg h1, if_neg h2]
      exact charListLe_total as bs
    · right; simp [h]

theorem charListLe_trans : ∀ as bs cs, charListLe as bs = true →
    charListLe bs cs = true → charListLe as cs = true
  | [], _, _ => by intro _ _; rfl
  | _ :: _, [], _ => by intro h _; simp [charListLe] at h
  | _ :: _, _ :: _, [] => by intro _ h; simp [charListLe] at h
  | a :: as, b :: bs, c :: cs => by
    simp only [charListLe]
    intro h1 h2
    rcases Nat.lt_trichotomy a.toNat b.toNat with hab | hab | hab <;>
      rcases Nat.lt_trichotomy b.toNat c.toNat with hbc | hbc | hbc
    · simp [show a.toNat < c.toNat by omega]
    · simp [show a.toNat < c.toNat by omega]
    · simp [hbc, show ¬ b.toNat < c.toNat by omega] at h2
    · simp [show a.toNat < c.toNat by omega]
    · simp only [if_neg (show ¬ a.toNat < c.toNat by omega),
        if_neg (show ¬ c.toNat < a.toNat by omega)]
      simp only [if_neg (show ¬ a.toNat < b.toNat by omega),
        if_neg (show ¬ b.toNat < a.toNat by omega)] at h1
      simp only [if_neg (show ¬ b.toNat < c.toNat by omega),
        if_neg (show ¬ c.toNat < b.toNat by omega)] at h2
      exact charListLe_trans as bs cs h1 h2
    · simp [hbc, show ¬ b.toNat < c.toNat by omega] at h2
    · simp [hab, show ¬ a.toNat < b.toNat by omega] at h1
    · simp [hab, show ¬ a.toNat < b.toNat by omega] at h1
    · simp [hab, show ¬ a.toNat < b.toNat by omega] at h1

theorem charListLe_antisymm : ∀ as bs, charListLe as bs = true →
    charListLe bs as = true → as = bs
  | [], [] => by intro _ _; rfl
  | [], _ :: _ => by intro _ h; simp [charListLe] at h
  | _ :: _, [] => by intro h _; simp [charListLe] at h
  | a :: as, b :: bs => by
    simp only [charListLe]
    intro h1 h2
    rcases Nat.lt_trichotomy a.toNat b.toNat with h | h | h
    · simp [h, show ¬ b.toNat < a.toNat by omega] at h2
    · have ha : a = b := Char.eq_of_val_eq (UInt32.toNat.inj h)
      have h1' := h1
      simp only [if_neg (show ¬ a.toNat < b.toNat by omega),
        if_neg (show ¬ b.toNat < a.toNat by omega)] at h1 h2
      rw [ha, charListLe_antisymm as bs h1 h2]
    · simp [h, show ¬ a.toNat < b.toNat by omega] at h1

instance : IsTotal String strLeRel :=
  ⟨fun a b => charListLe_total a.data b.data⟩

instance : IsTrans String strLeRel :=
  ⟨fun a b c => charListLe_trans a.data b.data c.data⟩

instance : IsAntisymm String strLeRel :=
  ⟨fun a b h1 h2 => by
    cases a; cases b
    exact congrArg String.mk (charListLe_antisymm _ _ h1 h2)⟩

theorem sortS_perm (l : List String) : (sortS l).Perm l :=
  List.perm_insertionSort _ l

theorem sortS_congr {a b : List String} (h : a.Perm b) : sortS a = sortS b :=
  List.eq_of_perm_of_sorted
    ((sortS_perm a).trans (h.trans (sortS_perm b).symm))
    (List.sorted_insertionSort _ a) (List.sorted_insertionSort _ b)

theorem perm_of_sortS_eq {a b : List String} (h : sortS a = sortS b) : a.Perm b :=
  (sortS_perm a).symm.trans (h ▸ sortS_perm b)

theorem sortS_length (l : List String) : (sortS l).length = l.length :=
  (sortS_perm l).length_eq

theorem mixGo_some {key : List String} {rs : List Item} {it : Item}
    (h : mixGo key rs = some it) :
    it ∈ rs ∧ ∃ r, it.recipe = some r ∧ sortS r = key := by
  induction rs with
  | nil => simp [mixGo] at h
  | cons x xs ih =>
    cases hx : x.recipe with
    | none =>
      simp only [mixGo, hx] at h
      rcases ih h with ⟨hm, hr⟩
      exact ⟨List.mem_cons_of_mem _ hm, hr⟩
    | some r =>
      simp only [mixGo, hx] at h
      by_cases hk : sortS r = key
      · rw [if_pos hk] at h
        cases h
        exact ⟨List.mem_cons_self _ _, r, hx, hk⟩
      · rw [if_neg hk] at h
        rcases ih h with ⟨hm, hr⟩
        exact ⟨List.mem_cons_of_mem _ hm, hr⟩

theorem mixGo_none {key : List String} {rs : List Item}
    (h : mixGo key rs = none) :
    ∀ it ∈ rs, ∀ r, it.recipe = some r → sortS r ≠ key := by
  induction rs with
  | nil => intro it hit; simp at hit
  | cons x xs ih =>
    intro it hit r hr
    cases hx : x.recipe with
    | none =>
      simp only [mixGo, hx] at h
      rcases List.mem_cons.mp hit with rfl | hm
      · rw [hx] at hr; cases hr
      · exact ih h it hm r hr
    | some r' =>
      simp only [mixGo, hx] at h
      by_cases hk : sortS r' = key
      · rw [if_pos hk] at h; cases h
      · rw [if_neg hk] at h
        rcases List.mem_cons.mp hit with rfl | hm
        · rw [hx] at hr; cases hr; exact hk
        · exact ih h it hm r hr

/-- Claim C5: for every Recipe Book and items x, y, `mix` gives the same
result on `[x, y]` and `[y, x]`; a successful mix returns an item whose
recipe is the unordered pair of the ingredient names, and a failed mix means
no item of the book has that unordered pair as its recipe. -/
theorem c5_mix_unordered (book : RecipeBook) (x y : Item) :
    mix book [x, y] = mix book [y, x] ∧
    (∀ it, mix book [x, y] = some it →
      ∃ r, it.recipe = some r ∧ r.Perm [x.name, y.name]) ∧
    (mix book [x, y] = none →
      ∀ it ∈ book.recipes, ∀ r, it.recipe = some r → ¬ r.Perm [x.name, y.name]) := by
  have hkey : sortS ([x, y].map Item.name) = sortS ([y, x].map Item.name) :=
    sortS_congr (List.Perm.swap _ _ _)
  refine ⟨?_, ?_, ?_⟩
  · rw [mix, mix, hkey]
  · intro it h
    rcases (mixGo_some h).2 with ⟨r, hr, hs⟩
    exact ⟨r, hr, perm_of_sortS_eq (hs.trans rfl)⟩
  · intro h it hit r hr hperm
    exact mixGo_none h it hit r hr (sortS_congr hperm)

/-- Witness for C5 at a concrete book and ingredient pair. -/
theorem c5_mix_unordered_witness :
    mix ⟨[], [], [⟨"c", some ["a", "b"]⟩]⟩ [⟨"b", none⟩, ⟨"a", none⟩] =
      mix ⟨[], [], [⟨"c", some ["a", "b"]⟩]⟩ [⟨"a", none⟩, ⟨"b", none⟩] ∧
    ∃ r, (Item.mk "c" (some ["a", "b"])).recipe = some r ∧ r.Perm ["b", "a"] := by
  refine ⟨(c5_mix_unordered ⟨[], [], [⟨"c", some ["a", "b"]⟩]⟩ ⟨"b", none⟩ ⟨"a", none⟩).1, ?_⟩
  exact (c5_mix_unordered ⟨[], [], [⟨"c", some ["a", "b"]⟩]⟩ ⟨"b", none⟩ ⟨"a", none⟩).2.1
    ⟨"c", some ["a", "b"]⟩ (by rfl)

/-! ### Customer lifecycle -/

/-- What every customer-spawning run guarantees: the creation timestamp is
the spawn time and the wait budget is one of the tier table values, hence
positive. -/
theorem spawnCustomer_spec {book : RecipeBook} {nm rO rP rW : Nat} {now : Rat}
    {c : Customer} (h : spawnCustomer book nm rO rP rW now = some c) :
    c.maketime = now ∧ c.name = nm ∧ 0 < c.waittime := by
  rw [spawnCustomer] at h
  rcases hp : book.recipes.filter (fun i => !i.recipe.isNone) with _ | ⟨o, os⟩ <;>
    rw [hp] at h
  · cases h
  · simp only at h
    split_ifs at h <;> cases h <;>
      refine ⟨rfl, rfl, ?_⟩ <;>
      exact Nat.cast_pos.mpr (by omega)

/-- Claim C7: a customer is expired (time_remaining at most 0, the condition
that triggers replacement in the refresh loop) exactly when the current time
has reached creation time plus wait budget; and any customer produced by the
spawning logic has a positive wait budget so is not expired at its own
creation instant. -/
theorem c7_expiry :
    (∀ (c : Customer) (now : Rat),
      time_remaining c now ≤ 0 ↔ c.maketime + c.waittime ≤ now) ∧
    (∀ (book : RecipeBook) (nm rO rP rW : Nat) (now : Rat) (c : Customer),
      spawnCustomer book nm rO rP rW now = some c →
      0 < c.waittime ∧ ¬ time_remaining c c.maketime ≤ 0) := by
  constructor
  · intro c now
    rw [time_remaining]
    constructor <;> intro h <;> linarith
  · intro book nm rO rP rW now c h
    have hs := spawnCustomer_spec h
    refine ⟨hs.2.2, ?_⟩
    rw [time_remaining]
    intro hle
    have := hs.2.2
    linarith

/-- Witness for C7 at a concrete book and spawn. -/
theorem c7_expiry_witness :
    ((time_remaining ⟨0, ⟨"Goodberry", some ["a", "b"]⟩, 5, 45, 7⟩ 100 ≤ 0) ↔
      ((7 : Rat) + 45 ≤ 100)) ∧
    (0 < (Customer.mk 0 ⟨"Goodberry", some ["a", "b"]⟩ 5 45 7).waittime ∧
      ¬ time_remaining ⟨0, ⟨"Goodberry", some ["a", "b"]⟩, 5, 45, 7⟩
          (Customer.mk 0 ⟨"Goodberry", some ["a", "b"]⟩ 5 45 7).maketime ≤ 0) := by
  constructor
  · exact c7_expiry.1 ⟨0, ⟨"Goodberry", some ["a", "b"]⟩, 5, 45, 7⟩ 100
  · exact c7_expiry.2 ⟨[], [], [⟨"Goodberry", some ["a", "b"]⟩]⟩ 0 0 0 0 7
      ⟨0, ⟨"Goodberry", some ["a", "b"]⟩, 5, 45, 7⟩ (by decide)

/-! ### Inventory and frame conditions -/

/-- Removing the just-appended copy succeeds and restores the inventory up to
Item equality (names). -/
theorem removeItem_append_self (item : Item) :
    ∀ inv : List Item, ∃ l, removeItem item (inv ++ [item]) = some l ∧
      (l.map Item.name).Perm (inv.map Item.name)
  | [] => ⟨[], by simp [removeItem], List.Perm.refl _⟩
  | x :: xs => by
    by_cases hx : x.name = item.name
    · exact ⟨xs ++ [item], by simp [removeItem, hx], by simp [hx]⟩
    · rcases removeItem_append_self item xs with ⟨l, hl, hp⟩
      exact ⟨x :: l, by simp [removeItem, hx, hl], hp.cons x.name⟩

/-- Claim C9: picking an item up from a location appends a copy to the
inventory and leaves the location list (hence the location's items) and the
Recipe Book untouched; trashing the picked-up copy afterwards also leaves
them untouched and restores the inventory to its original multiset of
names. -/
theorem c9_pickup_frame (g : GameState) (loc : Location) (item : Item)
    (hl : loc ∈ g.locations) (hi : item ∈ loc.items.getD []) :
    (pickup g item).locations = g.locations ∧
    (pickup g item).book = g.book ∧
    (pickup g item).player.inventory = g.player.inventory ++ [item] ∧
    ∃ g2, trash (pickup g item) item = some g2 ∧
      g2.locations = g.locations ∧ g2.book = g.book ∧
      loc ∈ g2.locations ∧ item ∈ loc.items.getD [] ∧
      (g2.player.inventory.map Item.name).Perm (g.player.inventory.map Item.name) := by
  refine ⟨rfl, rfl, rfl, ?_⟩
  rcases removeItem_append_self item g.player.inventory with ⟨l, hrem, hperm⟩
  exact ⟨{ g with player := { g.player with inventory := l } },
    by simp [trash, pickup, hrem], rfl, rfl, hl, hi, hperm⟩

/-- Witness for C9 at a concrete game state. -/
theorem c9_pickup_frame_witness :
    (pickup ⟨gameLocations, book0, ⟨swampLoc, [], 0⟩, []⟩
        ⟨"Purple Mushroom", none⟩).player.inventory =
      [] ++ [⟨"Purple Mushroom", none⟩] ∧
    ∃ g2, trash (pickup ⟨gameLocations, book0, ⟨swampLoc, [], 0⟩, []⟩
        ⟨"Purple Mushroom", none⟩) ⟨"Purple Mushroom", none⟩ = some g2 ∧
      g2.locations = gameLocations ∧ g2.book = book0 ∧
      swampLoc ∈ g2.locations ∧
      (⟨"Purple Mushroom", none⟩ : Item) ∈ swampLoc.items.getD [] ∧
      (g2.player.inventory.map Item.name).Perm
        (([] : List Item).map Item.name) := by
  have h := c9_pickup_frame ⟨gameLocations, book0, ⟨swampLoc, [], 0⟩, []⟩
    swampLoc ⟨"Purple Mushroom", none⟩ (by decide) (by decide)
  exact ⟨h.2.2.1, h.2.2.2⟩

/-! ### Delivery -/

/-- Accounting for Python `list.remove`: one element with the removed name
disappears, every other name keeps its count. -/
theorem removeItem_spec {item : Item} : ∀ {l l' : List Item},
    removeItem item l = some l' →
    l'.length + 1 = l.length ∧
    countName item.name l' + 1 = countName item.name l ∧
    ∀ m, m ≠ item.name → countName m l' = countName m l := by
  intro l
  induction l with
  | nil => intro l' h; simp [removeItem] at h
  | cons x xs ih =>
    intro l' h
    by_cases hx : x.name = item.name
    · simp only [removeItem, if_pos hx] at h
      cases h
      refine ⟨rfl, by simp [countName, List.countP_cons, hx], ?_⟩
      intro m hm
      simp [countName, List.countP_cons, hx, hm.symm]
    · simp only [removeItem, if_neg hx] at h
      rcases hmap : removeItem item xs with _ | ys
      · rw [hmap] at h; cases h
      · rw [hmap] at h
        cases h
        rcases ih hmap with ⟨h1, h2, h3⟩
        refine ⟨by simp [← h1], ?_, ?_⟩
        · simp only [countName, List.countP_cons] at h2 ⊢
          omega
        · intro m hm
          have hthis := h3 m hm
          simp only [countName, List.countP_cons] at hthis ⊢
          omega

/-- What a successful update_customer guarantees: the slot of the given
customer now holds the freshly spawned customer. -/
theorem update_customer_spec {book : RecipeBook} {cs : List Customer}
    {c : Customer} {rO rP rW : Nat} {now : Rat} {cs' : List Customer}
    (h : update_customer book cs c rO rP rW now = some cs') :
    ∃ nc, spawnCustomer book c.name rO rP rW now = some nc ∧
      c.name < cs.length ∧ cs' = cs.set c.name nc := by
  rcases hsp : spawnCustomer book c.name rO rP rW now with _ | nc
  · rw [update_customer, hsp] at h; cases h
  · rw [update_customer, hsp] at h
    simp only [Option.some_bind] at h
    by_cases hlen : c.name < cs.length
    · rw [if_pos hlen] at h
      cases h
      exact ⟨nc, rfl, hlen, rfl⟩
    · rw [if_neg hlen] at h; cases h

/-- Unfolding a successful deliver_order run into its three effects. -/
theorem deliver_order_spec {book : RecipeBook} {p : Player}
    {cs : List Customer} {item : Item} {c : Customer} {rO rP rW : Nat}
    {now : Rat} {p' : Player} {cs' : List Customer}
    (h : deliver_order book p cs item c rO rP rW now = some (p', cs')) :
    ∃ inv, removeItem item p.inventory = some inv ∧
      p'.inventory = inv ∧ p'.location = p.location ∧
      p'.score = (if item.name = c.order.name then p.score + c.points else p.score) ∧
      update_customer book cs c rO rP rW now = some cs' := by
  rcases hrem : removeItem item p.inventory with _ | inv
  · rw [deliver_order, hrem] at h; cases h
  · rw [deliver_order, hrem] at h
    simp only [Option.some_bind] at h
    rcases hupd : update_customer book cs c rO rP rW now with _ | cs2
    · rw [hupd] at h; cases h
    · rw [hupd] at h
      simp only [Option.map_some'] at h
      cases h
      exact ⟨inv, rfl, rfl, rfl, rfl, rfl⟩

/-- Claim C3: delivering an inventory item whose name matches the customer's
order adds exactly the customer's points to the score, removes one matching
inventory entry (all other counts unchanged), and puts a freshly created
customer with the new creation timestamp into that slot. -/
theorem c3_deliver_match (book : RecipeBook) (p : Player) (cs : List Customer)
    (item : Item) (c : Customer) (rO rP rW : Nat) (now : Rat)
    (p' : Player) (cs' : List Customer)
    (hname : item.name = c.order.name)
    (_hslot : cs[c.name]? = some c)
    (hfresh : c.maketime < now)
    (hrun : deliver_order book p cs item c rO rP rW now = some (p', cs')) :
    p'.score = p.score + c.points ∧
    p'.inventory.length + 1 = p.inventory.length ∧
    countName item.name p'.inventory + 1 = countName item.name p.inventory ∧
    (∀ m, m ≠ item.name → countName m p'.inventory = countName m p.inventory) ∧
    ∃ nc, cs'[c.name]? = some nc ∧ nc.maketime = now ∧ nc.maketime ≠ c.maketime := by
  rcases deliver_order_spec hrun with ⟨inv, hrem, hinv, _, hscore, hupd⟩
  rcases update_customer_spec hupd with ⟨nc, hsp, hlen, hset⟩
  rcases removeItem_spec hrem with ⟨h1, h2, h3⟩
  rcases spawnCustomer_spec hsp with ⟨hmk, _, _⟩
  refine ⟨by rw [hscore, if_pos hname], by rw [hinv]; exact h1,
    by rw [hinv]; exact h2, by intro m hm; rw [hinv]; exact h3 m hm, nc, ?_, hmk, ?_⟩
  · rw [hset]
    exact List.getElem?_set_self (by simpa using hlen)
  · rw [hmk]
    exact fun hh => absurd hh.symm (ne_of_lt hfresh)

/-- Claim C4: delivering an inventory item whose name does not match the
customer's order leaves the score unchanged, still removes the item from the
inventory, and still replaces the customer slot with a fresh customer. -/
theorem c4_deliver_mismatch (book : RecipeBook) (p : Player) (cs : List Customer)
    (item : Item) (c : Customer) (rO rP rW : Nat) (now : Rat)
    (p' : Player) (cs' : List Customer)
    (hname : item.name ≠ c.order.name)
    (_hslot : cs[c.name]? = some c)
    (hfresh : c.maketime < now)
    (hrun : deliver_order book p cs item c rO rP rW now = some (p', cs')) :
    p'.score = p.score ∧
    p'.inventory.length + 1 = p.inventory.length ∧
    countName item.name p'.inventory + 1 = countName item.name p.inventory ∧
    ∃ nc, cs'[c.name]? = some nc ∧ nc.maketime = now ∧ nc.maketime ≠ c.maketime := by
  rcases deliver_order_spec hrun with ⟨inv, hrem, hinv, _, hscore, hupd⟩
  rcases update_customer_spec hupd with ⟨nc, hsp, hlen, hset⟩
  rcases removeItem_spec hrem with ⟨h1, h2, _⟩
  rcases spawnCustomer_spec hsp with ⟨hmk, _, _⟩
  refine ⟨by rw [hscore, if_neg hname], by rw [hinv]; exact h1,
    by rw [hinv]; exact h2, nc, ?_, hmk, ?_⟩
  · rw [hset]
    exact List.getElem?_set_self (by simpa using hlen)
  · rw [hmk]
    exact fun hh => absurd hh.symm (ne_of_lt hfresh)

/-- Witness for C3 at a concrete matched delivery. -/
theorem c3_deliver_match_witness :
    (Player.mk ⟨"X", none, []⟩ [] 5).score = (0 : Nat) + 5 ∧
    (Player.mk ⟨"X", none, []⟩ [] 5).inventory.length + 1 =
      [Item.mk "Goodberry" (some ["a", "b"])].length ∧
    ∃ nc, ([Customer.mk 0 ⟨"Goodberry", some ["a", "b"]⟩ 5 45 1])[0]? = some nc ∧
      nc.maketime = (1 : Rat) ∧ nc.maketime ≠ (0 : Rat) := by
  have h := c3_deliver_match ⟨[], [], [⟨"Goodberry", some ["a", "b"]⟩]⟩
    ⟨⟨"X", none, []⟩, [⟨"Goodberry", some ["a", "b"]⟩], 0⟩
    [⟨0, ⟨"Goodberry", some ["a", "b"]⟩, 5, 45, 0⟩]
    ⟨"Goodberry", some ["a", "b"]⟩ ⟨0, ⟨"Goodberry", some ["a", "b"]⟩, 5, 45, 0⟩
    0 0 0 1 ⟨⟨"X", none, []⟩, [], 5⟩
    [⟨0, ⟨"Goodberry", some ["a", "b"]⟩, 5, 45, 1⟩]
    rfl (by rfl) (by norm_num) (by rfl)
  exact ⟨h.1, h.2.1, h.2.2.2.2⟩

/-- Witness for C4 at a concrete mismatched delivery. -/
theorem c4_deliver_mismatch_witness :
    (Player.mk ⟨"X", none, []⟩ [] 0).score = (0 : Nat) ∧
    (Player.mk ⟨"X", none, []⟩ [] 0).inventory.length + 1 =
      [Item.mk "Pebble" none].length ∧
    ∃ nc, ([Customer.mk 0 ⟨"Goodberry", some ["a", "b"]⟩ 5 45 1])[0]? = some nc ∧
      nc.maketime = (1 : Rat) ∧ nc.maketime ≠ (0 : Rat) := by
  have h := c4_deliver_mismatch ⟨[], [], [⟨"Goodberry", some ["a", "b"]⟩]⟩
    ⟨⟨"X", none, []⟩, [⟨"Pebble", none⟩], 0⟩
    [⟨0, ⟨"Goodberry", some ["a", "b"]⟩, 5, 45, 0⟩]
    ⟨"Pebble", none⟩ ⟨0, ⟨"Goodberry", some ["a", "b"]⟩, 5, 45, 0⟩
    0 0 0 1 ⟨⟨"X", none, []⟩, [], 0⟩
    [⟨0, ⟨"Goodberry", some ["a", "b"]⟩, 5, 45, 1⟩]
    (by decide) (by rfl) (by norm_num) (by rfl)
  exact ⟨h.1, h.2.1, h.2.2.2⟩

/-! ### Movement -/

/-- Claim C6: moving in a direction the current location declares relocates
the player to the declared neighbor; moving in an undeclared direction is a
silent no-op.  Concretely, on the generated map, moving E from the Swamp
reaches the Forest and moving N from the Swamp changes nothing. -/
theorem c6_move :
    (∀ (locs : List Location) (p : Player) (d : String),
      lookupA p.location.neighbors d = none → move locs p d = some p) ∧
    (∀ (locs : List Location) (p : Player) (d nxt : String) (l : Location),
      lookupA p.location.neighbors d = some nxt →
      get_location locs nxt = some l →
      move locs p d = some { p with location := l }) ∧
    move gameLocations playerSwamp "E" = some { playerSwamp with location := forestLoc } ∧
    move gameLocations playerSwamp "N" = some playerSwamp := by
  refine ⟨?_, ?_, ?_, ?_⟩
  · intro locs p d h
    rw [move, h]
  · intro locs p d nxt l h hg
    simp only [move, h]
    rw [hg]
    rfl
  · rfl
  · rfl

/-- Witness for C6: both general cases applied on the concrete map. -/
theorem c6_move_witness :
    move gameLocations playerSwamp "N" = some playerSwamp ∧
    move gameLocations playerSwamp "E" = some { playerSwamp with location := forestLoc } := by
  constructor
  · exact c6_move.1 gameLocations playerSwamp "N" (by decide)
  · exact c6_move.2.1 gameLocations playerSwamp "E" "Forest" forestLoc
      (by decide) (by decide)

/-! ### Recipe Book generation -/

theorem memName_eq_false {n : String} {l : List Item} :
    memName n l = false ↔ n ∉ l.map Item.name := by
  constructor
  · intro h hmem
    rcases List.mem_map.mp hmem with ⟨x, hx, hxn⟩
    have : memName n l = true := by
      simp only [memName, List.any_eq_true]
      exact ⟨x, hx, by simp [hxn]⟩
    rw [h] at this
    cases this
  · intro h
    by_contra hne
    have : memName n l = true := by
      cases hmn : memName n l
      · exact absurd hmn hne
      · rfl
    simp only [memName, List.any_eq_true] at this
    rcases this with ⟨x, hx, hxn⟩
    exact h (List.mem_map.mpr ⟨x, hx, by simpa using hxn⟩)

theorem getD_mod_mem {α : Type} [Inhabited α] (l : List α) (r : Nat)
    (h : l ≠ []) : l.getD (r % l.length) default ∈ l := by
  have hlt : r % l.length < l.length := Nat.mod_lt _ (List.length_pos.mpr h)
  simp only [List.getD_eq_getElem?_getD, List.getElem?_eq_getElem hlt,
    Option.getD_some]
  exact List.getElem_mem hlt

/-- A successful ingredient draw yields an element of the pool not yet used. -/
theorem drawIngredient_spec {recipes used : List Item} {r : Nat} {d : Item}
    (h : drawIngredient recipes used r = some d) :
    d ∈ recipes ∧ memName d.name used = false := by
  simp only [drawIngredient] at h
  rcases hav : recipes.filter (fun x => !memName x.name used) with _ | ⟨a, as⟩ <;>
    rw [hav] at h
  · cases h
  · cases h
    have hmem : (a :: as).getD (r % (a :: as).length) default ∈ a :: as :=
      getD_mod_mem _ r (by simp)
    have hmem2 : (a :: as).getD (r % (a :: as).length) default ∈
        recipes.filter (fun x => !memName x.name used) := by
      rw [hav]; exact hmem
    have hf := List.mem_filter.mp hmem2
    exact ⟨hf.1, by simpa using hf.2⟩

/-- A successful genItem run decomposed into its two draws. -/
theorem genItem_spec {name : String} {recipes used : List Item} {r1 r2 : Nat}
    {it : Item} {used' : List Item}
    (h : genItem name recipes used r1 r2 = some (it, used')) :
    ∃ d1 d2, drawIngredient recipes used r1 = some d1 ∧
      drawIngredient recipes (used ++ [d1]) r2 = some d2 ∧
      it = ⟨name, some [d1.name, d2.name]⟩ ∧ used' = used ++ [d1, d2] := by
  rcases h1 : drawIngredient recipes used r1 with _ | d1
  · rw [genItem, h1] at h; cases h
  · rw [genItem, h1] at h
    simp only [Option.some_bind] at h
    rcases h2 : drawIngredient recipes (used ++ [d1]) r2 with _ | d2
    · rw [h2] at h; cases h
    · rw [h2] at h
      simp only [Option.map_some'] at h
      cases h
      exact ⟨d1, d2, rfl, h2, rfl, rfl⟩

/-- The `used` bookkeeping of one tier: the ingredient occurrences of the
recipes list stay in bijection with `used`, whose names stay distinct. -/
theorem genTier_used {names : List String} : ∀ {recipes used : List Item}
    {rs : List Nat} {out : List Item × List Item × List Nat},
    genTier names recipes used rs = some out →
    (ingNames recipes).Perm (used.map Item.name) →
    (used.map Item.name).Nodup →
    (ingNames out.1).Perm (out.2.1.map Item.name) ∧
      (out.2.1.map Item.name).Nodup := by
  induction names with
  | nil =>
    intro recipes used rs out h hperm hnodup
    rw [genTier] at h
    cases h
    exact ⟨hperm, hnodup⟩
  | cons name rest ih =>
    intro recipes used rs out h hperm hnodup
    rw [genTier] at h
    rcases hg : genItem name recipes used (rs.headD 0) (rs.tail.headD 0)
      with _ | ⟨it, used'⟩
    · rw [hg] at h; cases h
    · rw [hg] at h
      simp only [Option.some_bind] at h
      rcases genItem_spec hg with ⟨d1, d2, hd1, hd2, hit, hu⟩
      have hnd1 : d1.name ∉ used.map Item.name :=
        memName_eq_false.mp (drawIngredient_spec hd1).2
      have hnd2 : d2.name ∉ (used ++ [d1]).map Item.name :=
        memName_eq_false.mp (drawIngredient_spec hd2).2
      have hnd2u : d2.name ∉ used.map Item.name := by
        intro hmem
        exact hnd2 (by simp [hmem])
      have hnd21 : d2.name ≠ d1.name := by
        intro hmem
        exact hnd2 (by simp [hmem])
      apply ih h
      · subst hit hu
        have : ingNames (recipes ++ [(⟨name, some [d1.name, d2.name]⟩ : Item)]) =
            ingNames recipes ++ [d1.name, d2.name] := by
          simp [ingNames, List.filterMap_append]
        rw [this]
        simpa using hperm.append (List.Perm.refl [d1.name, d2.name])
      · subst hu
        simp only [List.map_append]
        refine List.Nodup.append hnodup (by simp [hnd21.symm]) ?_
        intro a ha hb
        simp only [List.map_cons, List.map_nil, List.mem_cons,
          List.not_mem_nil, or_false, List.mem_singleton] at hb
        rcases hb with rfl | rfl
        · exact hnd1 ha
        · exact hnd2u ha

/-- genTier preserves the craftable-arity invariant: every item carries
either no recipe or a recipe of exactly two ingredients. -/
theorem genTier_len2 {names : List String} : ∀ {recipes used : List Item}
    {rs : List Nat} {out : List Item × List Item × List Nat},
    genTier names recipes used rs = some out →
    (∀ it ∈ recipes, ∀ l, it.recipe = some l → l.length = 2) →
    ∀ it ∈ out.1, ∀ l, it.recipe = some l → l.length = 2 := by
  induction names with
  | nil =>
    intro recipes used rs out h hrec
    rw [genTier] at h
    cases h
    exact hrec
  | cons name rest ih =>
    intro recipes used rs out h hrec
    rw [genTier] at h
    rcases hg : genItem name recipes used (rs.headD 0) (rs.tail.headD 0)
      with _ | ⟨it, used'⟩
    · rw [hg] at h; cases h
    · rw [hg] at h
      simp only [Option.some_bind] at h
      rcases genItem_spec hg with ⟨d1, d2, _, _, hit, _⟩
      apply ih h
      intro x hx l hl
      rcases List.mem_append.mp hx with hx | hx
      · exact hrec x hx l hl
      · rcases List.mem_singleton.mp hx with rfl
        rw [hit] at hl
        simp only at hl
        cases hl
        rfl

/-- buildTiers carries the used bookkeeping across all tiers. -/
theorem buildTiers_used {tiers : List (String × List String)} :
    ∀ {recipes used : List Item} {rs : List Nat}
    {out : List Item × List Item × List Nat},
    buildTiers tiers recipes used rs = some out →
    (ingNames recipes).Perm (used.map Item.name) →
    (used.map Item.name).Nodup →
    (ingNames out.1).Perm (out.2.1.map Item.name) ∧
      (out.2.1.map Item.name).Nodup := by
  induction tiers with
  | nil =>
    intro recipes used rs out h hperm hnodup
    rw [buildTiers] at h
    cases h
    exact ⟨hperm, hnodup⟩
  | cons tn rest ih =>
    obtain ⟨level, names⟩ := tn
    intro recipes used rs out h hperm hnodup
    rw [buildTiers] at h
    by_cases hl : level = "FOUND"
    · rw [if_pos hl] at h
      refine ih h ?_ hnodup
      have : ingNames (recipes ++ names.map fun n => (⟨n, none⟩ : Item)) =
          ingNames recipes := by
        simp [ingNames, List.filterMap_append, List.filterMap_map,
          Function.comp]
      rw [this]
      exact hperm
    · rw [if_neg hl] at h
      rcases hg : genTier names recipes used rs with _ | ru
      · rw [hg] at h; cases h
      · rw [hg] at h
        simp only [Option.some_bind] at h
        rcases genTier_used hg hperm hnodup with ⟨hp, hn⟩
        exact ih h hp hn

/-- buildTiers carries the craftable-arity invariant across all tiers. -/
theorem buildTiers_len2 {tiers : List (String × List String)} :
    ∀ {recipes used : List Item} {rs : List Nat}
    {out : List Item × List Item × List Nat},
    buildTiers tiers recipes used rs = some out →
    (∀ it ∈ recipes, ∀ l, it.recipe = some l → l.length = 2) →
    ∀ it ∈ out.1, ∀ l, it.recipe = some l → l.length = 2 := by
  induction tiers with
  | nil =>
    intro recipes used rs out h hrec
    rw [buildTiers] at h
    cases h
    exact hrec
  | cons tn rest ih =>
    obtain ⟨level, names⟩ := tn
    intro recipes used rs out h hrec
    rw [buildTiers] at h
    by_cases hl : level = "FOUND"
    · rw [if_pos hl] at h
      refine ih h ?_
      intro x hx l hlx
      rcases List.mem_append.mp hx with hx | hx
      · exact hrec x hx l hlx
      · rcases List.mem_map.mp hx with ⟨n, _, rfl⟩
        cases hlx
    · rw [if_neg hl] at h
      rcases hg : genTier names recipes used rs with _ | ru
      · rw [hg] at h; cases h
      · rw [hg] at h
        simp only [Option.some_bind] at h
        exact ih h (genTier_len2 hg hrec)

/-- Tier monotonicity of one tier pass: if every pool item already has a tier
at most `t` and the processed names all have tier `t`, then afterwards every
item still has a tier at most `t` and every craftable item has exactly two
ingredients whose tiers do not exceed its own. -/
theorem genTier_tier {T : List (String × List String)} {t : Nat}
    {names : List String} : ∀ {recipes used : List Item} {rs : List Nat}
    {out : List Item × List Item × List Nat},
    genTier names recipes used rs = some out →
    (∀ n ∈ names, tierOf T n = some t) →
    (∀ it ∈ recipes, ∃ i, tierOf T it.name = some i ∧ i ≤ t) →
    (∀ it ∈ recipes, ∀ l, it.recipe = some l → ∀ n ∈ l, ∃ i j,
      tierOf T n = some i ∧ tierOf T it.name = some j ∧ i ≤ j) →
    (∀ it ∈ out.1, ∃ i, tierOf T it.name = some i ∧ i ≤ t) ∧
    (∀ it ∈ out.1, ∀ l, it.recipe = some l → ∀ n ∈ l, ∃ i j,
      tierOf T n = some i ∧ tierOf T it.name = some j ∧ i ≤ j) := by
  induction names with
  | nil =>
    intro recipes used rs out h _ hbound hgood
    rw [genTier] at h
    cases h
    exact ⟨hbound, hgood⟩
  | cons name rest ih =>
    intro recipes used rs out h hnames hbound hgood
    rw [genTier] at h
    rcases hg : genItem name recipes used (rs.headD 0) (rs.tail.headD 0)
      with _ | ⟨it, used'⟩
    · rw [hg] at h; cases h
    · rw [hg] at h
      simp only [Option.some_bind] at h
      rcases genItem_spec hg with ⟨d1, d2, hd1, hd2, hit, _⟩
      have hd1m : d1 ∈ recipes := (drawIngredient_spec hd1).1
      have hd2m : d2 ∈ recipes := (drawIngredient_spec hd2).1
      have htn : tierOf T name = some t := hnames name (List.mem_cons_self _ _)
      refine ih h (fun n hn => hnames n (List.mem_cons_of_mem _ hn)) ?_ ?_
      · intro x hx
        rcases List.mem_append.mp hx with hx | hx
        · exact hbound x hx
        · rcases List.mem_singleton.mp hx with rfl
          rw [hit]
          exact ⟨t, htn, le_rfl⟩
      · intro x hx l hl n hn
        rcases List.mem_append.mp hx with hx | hx
        · exact hgood x hx l hl n hn
        · rcases List.mem_singleton.mp hx with rfl
          rw [hit] at hl ⊢
          simp only at hl
          cases hl
          simp only [List.mem_cons, List.not_mem_nil, or_false,
            List.mem_singleton] at hn
          rcases hn with rfl | rfl
          · rcases hbound d1 hd1m with ⟨i, hi, hle⟩
            exact ⟨i, t, hi, htn, hle⟩
          · rcases hbound d2 hd2m with ⟨i, hi, hle⟩
            exact ⟨i, t, hi, htn, hle⟩

/-- Claim C10: on any generated book, mixing an ingredient list whose length
is not 2 (for instance the empty or singleton lists the mix prompt can
produce) yields nothing, because every craftable recipe has exactly two
ingredients and sorted lists of different lengths never compare equal. -/
theorem c10_mix_arity (tiers : List (String × List String)) (rs : List Nat)
    (book : RecipeBook) (h : create_book tiers rs = some book)
    (ings : List Item) (hlen : ings.length ≠ 2) : mix book ings = none := by
  have hall : ∀ it ∈ book.recipes, ∀ l, it.recipe = some l → l.length = 2 := by
    rw [create_book] at h
    rcases hb : buildTiers tiers [] [] rs with _ | out
    · rw [hb] at h; cases h
    · rw [hb] at h
      simp only [Option.map_some'] at h
      cases h
      exact buildTiers_len2 hb (by intro it hit; simp at hit)
  have hkey : (sortS (ings.map Item.name)).length ≠ 2 := by
    rw [sortS_length, List.length_map]
    exact hlen
  rw [mix]
  generalize hrs : book.recipes = rcs at hall
  clear hrs
  induction rcs with
  | nil => rfl
  | cons x xs ihx =>
    have hx := hall x (List.mem_cons_self _ _)
    cases hxr : x.recipe with
    | none =>
      simp only [mixGo, hxr]
      exact ihx fun it hit l hl => hall it (List.mem_cons_of_mem _ hit) l hl
    | some r =>
      simp only [mixGo, hxr]
      have : sortS r ≠ sortS (ings.map Item.name) := by
        intro heq
        apply hkey
        rw [← heq, sortS_length]
        exact hx r hxr
      rw [if_neg this]
      exact ihx fun it hit l hl => hall it (List.mem_cons_of_mem _ hit) l hl

/-- Witness for C10: the actual generated book with an empty ingredient
list. -/
theorem c10_mix_arity_witness : mix book0 [] = none :=
  c10_mix_arity ITEMS_BY_INGREDIENTS [] book0 (by rfl) [] (by decide)

/-- Claim C2: over any tier table, no item is drawn as an ingredient twice
anywhere in a generated book (all ingredient occurrences have pairwise
distinct names); and in the concrete scenario with found items A, B, C, D and
one basic item E, the generated recipe for E has exactly two distinct
ingredients from those four. -/
theorem c2_no_reuse :
    (∀ (tiers : List (String × List String)) (rs : List Nat) (book : RecipeBook),
      create_book tiers rs = some book → (allIngredients book).Nodup) ∧
    (∀ (rs : List Nat) (book : RecipeBook),
      create_book SCENARIO_TIERS rs = some book →
      ∃ l, get_item book "E" = some ⟨"E", some l⟩ ∧ l.length = 2 ∧ l.Nodup ∧
        ∀ n ∈ l, n ∈ ["A", "B", "C", "D"]) := by
  constructor
  · intro tiers rs book h
    rw [create_book] at h
    rcases hb : buildTiers tiers [] [] rs with _ | out
    · rw [hb] at h; cases h
    · rw [hb] at h
      simp only [Option.map_some'] at h
      cases h
      have := buildTiers_used hb (by simp [ingNames]) (by simp)
      exact this.1.nodup_iff.mpr this.2
  · intro rs book h
    have h2 : (genTier ["E"]
        [(⟨"A", none⟩ : Item), ⟨"B", none⟩, ⟨"C", none⟩, ⟨"D", none⟩] [] rs).bind
        (fun ru => buildTiers [] ru.1 ru.2.1 ru.2.2) = (buildTiers SCENARIO_TIERS [] [] rs) := rfl
    rw [create_book] at h
    rcases hb : buildTiers SCENARIO_TIERS [] [] rs with _ | out
    · rw [hb] at h; cases h
    · rw [hb] at h
      simp only [Option.map_some'] at h
      cases h
      rw [← h2] at hb
      rcases hg : genItem "E"
          [(⟨"A", none⟩ : Item), ⟨"B", none⟩, ⟨"C", none⟩, ⟨"D", none⟩] []
          (rs.headD 0) (rs.tail.headD 0) with _ | ⟨it, used'⟩
      · rw [genTier, hg] at hb; cases hb
      · rw [genTier, hg] at hb
        simp only [Option.some_bind, genTier, buildTiers] at hb
        cases hb
        rcases genItem_spec hg with ⟨d1, d2, hd1, hd2, hit, _⟩
        have hd1m : d1 ∈ [(⟨"A", none⟩ : Item), ⟨"B", none⟩, ⟨"C", none⟩, ⟨"D", none⟩] :=
          (drawIngredient_spec hd1).1
        have hd2m : d2 ∈ [(⟨"A", none⟩ : Item), ⟨"B", none⟩, ⟨"C", none⟩, ⟨"D", none⟩] :=
          (drawIngredient_spec hd2).1
        have hne : d2.name ≠ d1.name := by
          have := memName_eq_false.mp (drawIngredient_spec hd2).2
          intro hx
          exact this (by simp [hx])
        have hdname : ∀ d, d ∈ [(⟨"A", none⟩ : Item), ⟨"B", none⟩, ⟨"C", none⟩, ⟨"D", none⟩] →
            d.name ∈ ["A", "B", "C", "D"] := by
          intro d hd
          fin_cases hd <;> simp
        refine ⟨[d1.name, d2.name], ?_, rfl, by simp [hne.symm], ?_⟩
        · rw [hit, get_item]
          have hA : (⟨"A", none⟩ : Item).name ≠ "E" := by decide
          have hgl : ([(⟨"A", none⟩ : Item), ⟨"B", none⟩, ⟨"C", none⟩, ⟨"D", none⟩] ++
              [(⟨"E", some [d1.name, d2.name]⟩ : Item)]).filter
                (fun i => i.name = "E") = [⟨"E", some [d1.name, d2.name]⟩] := by
            rw [List.filter_append]
            simp
          simp only [hgl]
          rfl
        · intro n hn
          simp only [List.mem_cons, List.not_mem_nil, or_false,
            List.mem_singleton] at hn
          rcases hn with rfl | rfl
          · exact hdname d1 hd1m
          · exact hdname d2 hd2m

/-- Witness for C2: part one on the actual asset tables and the all-zero
stream, part two on the scenario tiers and the all-zero stream. -/
theorem c2_no_reuse_witness :
    (allIngredients book0).Nodup ∧
    ∃ l, get_item ((create_book SCENARIO_TIERS []).getD default) "E" =
        some ⟨"E", some l⟩ ∧ l.length = 2 ∧ l.Nodup ∧
      ∀ n ∈ l, n ∈ ["A", "B", "C", "D"] := by
  constructor
  · exact c2_no_reuse.1 ITEMS_BY_INGREDIENTS [] book0 (by rfl)
  · exact c2_no_reuse.2 [] ((create_book SCENARIO_TIERS []).getD default) (by rfl)

/-- Claim C1, amended: in every book generated from the actual asset tables,
every craftable item has exactly 2 ingredients and the tier of each
ingredient is at most (not necessarily strictly below) the tier of the item:
ingredients never come from a later tier, but an item appended earlier in the
same tier pass is eligible, because create_book appends each new item to the
draw pool before processing the next name of the same tier. -/
theorem c1_tier_monotone (rs : List Nat) (book : RecipeBook)
    (h : create_book ITEMS_BY_INGREDIENTS rs = some book) :
    ∀ it ∈ book.recipes, ∀ l, it.recipe = some l →
      l.length = 2 ∧ ∀ n ∈ l, ∃ i j,
        tierOf ITEMS_BY_INGREDIENTS n = some i ∧
        tierOf ITEMS_BY_INGREDIENTS it.name = some j ∧ i ≤ j := by
  rw [create_book] at h
  rcases hb : buildTiers ITEMS_BY_INGREDIENTS [] [] rs with _ | out
  · rw [hb] at h; cases h
  · rw [hb] at h
    simp only [Option.map_some'] at h
    cases h
    have hlen := buildTiers_len2 hb (by intro it hit; simp at hit)
    have hb1 : (genTier ["Goodberry", "Antidote", "Evil Eye"] foundRecipes [] rs).bind
        (fun ru => buildTiers
          [("INTERMEDIATE", ["Health Potion", "Awakening", "Amulet"]),
           ("ADVANCED", ["Banishing Sigil", "Substitute Doll"])]
          ru.1 ru.2.1 ru.2.2) = some out := hb
    have hF0 : ∀ it ∈ foundRecipes, tierOf ITEMS_BY_INGREDIENTS it.name = some 0 := by
      decide
    have hFnone : ∀ it ∈ foundRecipes, it.recipe = none := by decide
    have hFgood : ∀ it ∈ foundRecipes, ∀ l, it.recipe = some l → ∀ n ∈ l,
        ∃ i j, tierOf ITEMS_BY_INGREDIENTS n = some i ∧
          tierOf ITEMS_BY_INGREDIENTS it.name = some j ∧ i ≤ j := by
      intro it hit l hl
      rw [hFnone it hit] at hl
      cases hl
    rcases hg1 : genTier ["Goodberry", "Antidote", "Evil Eye"] foundRecipes [] rs
      with _ | ru1
    · rw [hg1] at hb1; cases hb1
    · rw [hg1] at hb1
      simp only [Option.some_bind] at hb1
      have ht1 := genTier_tier (T := ITEMS_BY_INGREDIENTS) (t := 1) hg1
        (by decide) (fun it hit => ⟨0, hF0 it hit, by omega⟩) hFgood
      have hb2 : (genTier ["Health Potion", "Awakening", "Amulet"]
          ru1.1 ru1.2.1 ru1.2.2).bind
          (fun ru => buildTiers [("ADVANCED", ["Banishing Sigil", "Substitute Doll"])]
            ru.1 ru.2.1 ru.2.2) = some out := hb1
      rcases hg2 : genTier ["Health Potion", "Awakening", "Amulet"]
          ru1.1 ru1.2.1 ru1.2.2 with _ | ru2
      · rw [hg2] at hb2; cases hb2
      · rw [hg2] at hb2
        simp only [Option.some_bind] at hb2
        have ht2 := genTier_tier (T := ITEMS_BY_INGREDIENTS) (t := 2) hg2
          (by decide)
          (fun it hit => by
            rcases ht1.1 it hit with ⟨i, hi, hle⟩
            exact ⟨i, hi, by omega⟩)
          ht1.2
        have hb3 : (genTier ["Banishing Sigil", "Substitute Doll"]
            ru2.1 ru2.2.1 ru2.2.2).bind
            (fun ru => buildTiers [] ru.1 ru.2.1 ru.2.2) = some out := hb2
        rcases hg3 : genTier ["Banishing Sigil", "Substitute Doll"]
            ru2.1 ru2.2.1 ru2.2.2 with _ | ru3
        · rw [hg3] at hb3; cases hb3
        · rw [hg3] at hb3
          simp only [Option.some_bind, buildTiers] at hb3
          have ht3 := genTier_tier (T := ITEMS_BY_INGREDIENTS) (t := 3) hg3
            (by decide)
            (fun it hit => by
              rcases ht2.1 it hit with ⟨i, hi, hle⟩
              exact ⟨i, hi, by omega⟩)
            ht2.2
          cases hb3
          intro it hit l hl
          exact ⟨hlen it hit l hl, ht3.2 it hit l hl⟩

/-- Counterexample to C1 as stated: already with the all-zero random stream,
create_book generates the ADVANCED item Substitute Doll with the ADVANCED
ingredient Banishing Sigil, so an ingredient can come from the item's own
tier and the strict-precedence reading is false. -/
theorem c1_counterexample :
    create_book ITEMS_BY_INGREDIENTS [] = some book0 ∧ ¬ StrictTierBook book0 := by
  constructor
  · rfl
  · decide

/-- Witness for the amended C1: the generated item Goodberry of the all-zero
run has two ingredients whose tiers are at most its own. -/
theorem c1_tier_monotone_witness :
    ["Purple Mushroom", "Forget-Me-Not"].length = 2 ∧
    ∀ n ∈ ["Purple Mushroom", "Forget-Me-Not"], ∃ i j,
      tierOf ITEMS_BY_INGREDIENTS n = some i ∧
      tierOf ITEMS_BY_INGREDIENTS (Item.mk "Goodberry"
        (some ["Purple Mushroom", "Forget-Me-Not"])).name = some j ∧ i ≤ j :=
  c1_tier_monotone [] book0 (by rfl)
    ⟨"Goodberry", some ["Purple Mushroom", "Forget-Me-Not"]⟩ (by decide)
    ["Purple Mushroom", "Forget-Me-Not"] rfl

/-! ### Map generation -/

/-- Removing a member of a nodup-named pool by its name puts exactly that
member back in front: the pool is recovered up to permutation. -/
theorem removeName_cons_perm : ∀ {pool : List Item} {x : Item},
    (pool.map Item.name).Nodup → x ∈ pool →
    (x :: removeName x.name pool).Perm pool := by
  intro pool
  induction pool with
  | nil => intro x _ hx; cases hx
  | cons y ys ih =>
    intro x hnd hx
    by_cases hy : y.name = x.name
    · have hxy : x = y := by
        rcases List.mem_cons.mp hx with rfl | hmem
        · rfl
        · exfalso
          have : x.name ∈ ys.map Item.name := List.mem_map.mpr ⟨x, hmem, rfl⟩
          rw [← hy] at this
          exact (List.nodup_cons.mp (by simpa using hnd)).1 this
      rw [removeName, if_pos hy, hxy]
    · have hmem : x ∈ ys := by
        rcases List.mem_cons.mp hx with rfl | hmem
        · exact absurd rfl hy
        · exact hmem
      rw [removeName, if_neg hy]
      exact (List.Perm.swap y x _).trans
        ((ih (List.nodup_cons.mp (by simpa using hnd)).2 hmem).cons y)

/-- A draw from a nonempty nodup-named pool returns a member and the pool
minus that member. -/
theorem drawItem_spec {pool : List Item} {r : Nat} {it : Item}
    {rest : List Item} (hnd : (pool.map Item.name).Nodup)
    (h : drawItem pool r = some (it, rest)) :
    it ∈ pool ∧ (it :: rest).Perm pool ∧ (rest.map Item.name).Nodup ∧
      rest.length + 1 = pool.length := by
  rcases pool with _ | ⟨a, as⟩
  · cases h
  · rw [drawItem] at h
    cases h
    have hmem : (a :: as).getD (r % (a :: as).length) default ∈ a :: as :=
      getD_mod_mem _ r (by simp)
    have hperm := removeName_cons_perm hnd hmem
    refine ⟨hmem, hperm, ?_, by simpa using hperm.length_eq⟩
    have := (hperm.map Item.name).nodup_iff.mpr hnd
    exact (List.nodup_cons.mp this).2

/-- Drawing n items from a nodup-named pool of at least n items succeeds and
splits the pool. -/
theorem drawItems_exists : ∀ (n : Nat) (pool : List Item) (rs : List Nat),
    (pool.map Item.name).Nodup → n ≤ pool.length →
    ∃ taken rest rs', drawItems n pool rs = some (taken, rest, rs') ∧
      (taken ++ rest).Perm pool ∧ taken.length = n ∧
      (rest.map Item.name).Nodup ∧ rest.length + n = pool.length := by
  intro n
  induction n with
  | zero =>
    intro pool rs hnd _
    exact ⟨[], pool, rs, rfl, List.Perm.refl _, rfl, hnd, rfl⟩
  | succ n ih =>
    intro pool rs hnd hle
    rcases pool with _ | ⟨a, as⟩
    · simp at hle
    · have hdi : drawItem (a :: as) (rs.headD 0) =
          some ((a :: as).getD (rs.headD 0 % (a :: as).length) default,
            removeName ((a :: as).getD (rs.headD 0 % (a :: as).length) default).name
              (a :: as)) := rfl
      rcases drawItem_spec hnd hdi with ⟨hmem, hperm, hndr, hlenr⟩
      have hle2 : n ≤ (removeName ((a :: as).getD
          (rs.headD 0 % (a :: as).length) default).name (a :: as)).length := by
        have hlr := hlenr
        simp only [List.length_cons] at hle hlr ⊢
        omega
      rcases ih _ rs.tail hndr hle2 with ⟨taken, rest2, rs', hrec, hperm2, hlen2, hnd2, hlen3⟩
      refine ⟨(a :: as).getD (rs.headD 0 % (a :: as).length) default :: taken,
        rest2, rs', ?_, ?_, by simp [hlen2], hnd2, ?_⟩
      · rw [drawItems, hdi]
        simp only [Option.some_bind, hrec, Option.map_some']
      · exact ((hperm2.cons _).trans hperm)
      · have hlr := hlenr
        simp only [List.length_cons] at hlr hlen3 ⊢
        omega

/-- The main distribution loop of create_map: every non-Cauldron location
gets exactly perLoc items drawn from the pool, the Cauldron gets none, and
the drawn items together with the remaining pool are the original pool. -/
theorem fillLocations_exists : ∀ (names : List String) (pool : List Item)
    (rs : List Nat) (perLoc : Nat),
    (pool.map Item.name).Nodup →
    (names.countP fun n => n ≠ "Cauldron") * perLoc ≤ pool.length →
    ∃ locs rest rs', fillLocations names pool rs perLoc = some (locs, rest, rs') ∧
      locs.map Location.name = names ∧
      (∀ loc ∈ locs, loc.name = "Cauldron" → loc.items = none) ∧
      (∀ loc ∈ locs, loc.name ≠ "Cauldron" → ∃ l, loc.items = some l ∧
        l.length = perLoc) ∧
      (joinItems locs ++ rest).Perm pool ∧
      (rest.map Item.name).Nodup ∧
      rest.length + (names.countP fun n => n ≠ "Cauldron") * perLoc = pool.length := by
  intro names
  induction names with
  | nil =>
    intro pool rs perLoc hnd _
    exact ⟨[], pool, rs, rfl, rfl, by simp, by simp,
      by simp [joinItems], hnd, by simp⟩
  | cons n ns ih =>
    intro pool rs perLoc hnd hle
    by_cases hn : n = "Cauldron"
    · subst hn
      have hcnt : (("Cauldron" :: ns).countP fun n => n ≠ "Cauldron") =
          ns.countP fun n => n ≠ "Cauldron" :=
        List.countP_cons_of_neg _ _ (by decide)
      rw [hcnt] at hle
      rcases ih pool rs perLoc hnd hle with
        ⟨locs, rest, rs', hfill, hnames, hC, hNC, hperm, hndr, hlen⟩
      refine ⟨⟨"Cauldron", none, (lookupA MAP_SETUP "Cauldron").getD []⟩ :: locs,
        rest, rs', ?_, by simp [hnames], ?_, ?_, ?_, hndr, by rw [hcnt]; exact hlen⟩
      · rw [fillLocations, if_pos rfl, hfill]
        rfl
      · intro loc hloc hname
        rcases List.mem_cons.mp hloc with rfl | hmem
        · rfl
        · exact hC loc hmem hname
      · intro loc hloc hname
        rcases List.mem_cons.mp hloc with rfl | hmem
        · exact absurd rfl hname
        · exact hNC loc hmem hname
      · simpa [joinItems] using hperm
    · have hcnt : ((n :: ns).countP fun n => n ≠ "Cauldron") =
          (ns.countP fun n => n ≠ "Cauldron") + 1 :=
        List.countP_cons_of_pos _ _ (by simpa using hn)
      rw [hcnt, Nat.succ_mul] at hle
      have hperLoc : perLoc ≤ pool.length :=
        le_trans (Nat.le_add_left perLoc _) hle
      rcases drawItems_exists perLoc pool rs hnd hperLoc with
        ⟨taken, rest1, rs1, hdraw, hpermD, hlenT, hndR1, hlenR1⟩
      have hrec_le : (ns.countP fun n => n ≠ "Cauldron") * perLoc ≤ rest1.length := by
        omega
      rcases ih rest1 rs1 perLoc hndR1 hrec_le with
        ⟨locs, rest2, rs2, hfill, hnames, hC, hNC, hperm2, hnd2, hlen2⟩
      refine ⟨⟨n, some taken, (lookupA MAP_SETUP n).getD []⟩ :: locs, rest2, rs2,
        ?_, by simp [hnames], ?_, ?_, ?_, hnd2, ?_⟩
      · rw [fillLocations, if_neg hn, hdraw]
        simp only [Option.some_bind, hfill, Option.map_some']
      · intro loc hloc hname
        rcases List.mem_cons.mp hloc with rfl | hmem
        · exact absurd hname hn
        · exact hC loc hmem hname
      · intro loc hloc hname
        rcases List.mem_cons.mp hloc with rfl | hmem
        · exact ⟨taken, rfl, hlenT⟩
        · exact hNC loc hmem hname
      · have hj : joinItems (⟨n, some taken, (lookupA MAP_SETUP n).getD []⟩ :: locs) =
            taken ++ joinItems locs := rfl
        rw [hj, List.append_assoc]
        exact ((hperm2.append_left taken).trans hpermD)
      · rw [hcnt, Nat.succ_mul]
        omega

/-- Appending one item to the j-th location adds exactly that item to the
multiset of placed items. -/
theorem joinItems_set_perm : ∀ (locs : List Location) (j : Nat) (it : Item),
    j < locs.length →
    (joinItems (locs.set j (addItemTo it (locs.getD j default)))).Perm
      (joinItems locs ++ [it]) := by
  intro locs
  induction locs with
  | nil => intro j it h; simp at h
  | cons x xs ih =>
    intro j it h
    cases j with
    | zero =>
      have h1 : joinItems ((x :: xs).set 0 (addItemTo it ((x :: xs).getD 0 default))) =
          (x.items.getD [] ++ [it]) ++ joinItems xs := rfl
      have h2 : joinItems (x :: xs) = x.items.getD [] ++ joinItems xs := rfl
      rw [h1, h2, List.append_assoc, List.append_assoc]
      exact (List.perm_append_comm).append_left _
    | succ j =>
      have h1 : (x :: xs).set (j + 1) (addItemTo it ((x :: xs).getD (j + 1) default)) =
          x :: xs.set j (addItemTo it (xs.getD j default)) := rfl
      have h2 : joinItems (x :: xs) = x.items.getD [] ++ joinItems xs := rfl
      rw [h1]
      have h3 : joinItems (x :: xs.set j (addItemTo it (xs.getD j default))) =
          x.items.getD [] ++ joinItems (xs.set j (addItemTo it (xs.getD j default))) := rfl
      rw [h3, h2, List.append_assoc]
      exact (ih j it (by simpa using Nat.lt_of_succ_lt_succ h)).append_left _

/-- Writing back the element read at an index leaves a list unchanged. -/
theorem set_getD_self {α : Type} [Inhabited α] : ∀ (l : List α) (j : Nat),
    l.set j (l.getD j default) = l
  | [], _ => rfl
  | _ :: _, 0 => rfl
  | x :: xs, j + 1 => congrArg (List.cons x) (set_getD_self xs j)

/-- addItemTo does not change a location's name, so the name layout of the
map survives the leftover loop's updates. -/
theorem map_name_set_addItemTo (locs : List Location) (j : Nat) (it : Item) :
    (locs.set j (addItemTo it (locs.getD j default))).map Location.name =
      locs.map Location.name := by
  rw [List.map_set]
  have hname : (addItemTo it (locs.getD j default)).name =
      (locs.map Location.name).getD j default := by
    simp only [addItemTo, List.getD_eq_getElem?_getD, List.getElem?_map]
    cases locs[j]? <;> rfl
  rw [hname, set_getD_self]

/-- The leftover loop of create_map consumes the whole remaining pool,
placing each item at some non-Cauldron location: names survive, slot 0 keeps
its item list, each slot's item count never decreases, and the placed
multiset is the old one plus the pool. -/
theorem placeLeftovers_exists : ∀ (n : Nat) (pool : List Item)
    (locs : List Location) (rl ri : List Nat),
    n = pool.length →
    (pool.map Item.name).Nodup →
    locs.map Location.name = LOC_NAMES →
    ∃ locs', placeLeftovers n locs pool rl ri = some locs' ∧
      locs'.map Location.name = LOC_NAMES ∧
      (locs'.getD 0 default).items = (locs.getD 0 default).items ∧
      (joinItems locs').Perm (joinItems locs ++ pool) ∧
      ∀ i, ((locs.getD i default).items.getD []).length ≤
        ((locs'.getD i default).items.getD []).length := by
  intro n
  induction n with
  | zero =>
    intro pool locs rl ri hn hnd hnames
    have : pool = [] := List.length_eq_zero.mp hn.symm
    subst this
    exact ⟨locs, rfl, hnames, rfl, by simp, fun i => le_rfl⟩
  | succ n ih =>
    intro pool locs rl ri hn hnd hnames
    rcases pool with _ | ⟨p, ps⟩
    · simp at hn
    · have hdi : drawItem (p :: ps) (ri.headD 0) =
          some ((p :: ps).getD (ri.headD 0 % (p :: ps).length) default,
            removeName ((p :: ps).getD (ri.headD 0 % (p :: ps).length) default).name
              (p :: ps)) := rfl
      rcases drawItem_spec hnd hdi with ⟨hmem, hperm, hndr, hlenr⟩
      have hj5 : 1 + rl.headD 0 % 5 < 6 := by
        have : rl.headD 0 % 5 < 5 := Nat.mod_lt _ (by omega)
        omega
      have hlocs6 : locs.length = 6 := by
        have := congrArg List.length hnames
        simpa using this
      have hnames2 : (locs.set (1 + rl.headD 0 % 5)
          (addItemTo ((p :: ps).getD (ri.headD 0 % (p :: ps).length) default)
            (locs.getD (1 + rl.headD 0 % 5) default))).map Location.name =
          LOC_NAMES := by
        rw [map_name_set_addItemTo]
        exact hnames
      have hrecn : n = (removeName
          ((p :: ps).getD (ri.headD 0 % (p :: ps).length) default).name
          (p :: ps)).length := by
        have hlr := hlenr
        simp only [List.length_cons] at hlr hn ⊢
        omega
      rcases ih _ _ rl.tail ri.tail hrecn hndr hnames2 with
        ⟨locs', hrec, hnames', hP0, hperm2, hmono⟩
      refine ⟨locs', ?_, hnames', ?_, ?_, ?_⟩
      · rw [placeLeftovers, hdi]
        simp only [Option.some_bind]
        exact hrec
      · rw [hP0]
        have h0j : (0 : Nat) ≠ 1 + rl.headD 0 % 5 := by omega
        simp only [List.getD_eq_getElem?_getD, List.getElem?_set_ne h0j.symm]
      · refine hperm2.trans ?_
        have hset := joinItems_set_perm locs (1 + rl.headD 0 % 5)
          ((p :: ps).getD (ri.headD 0 % (p :: ps).length) default)
          (by rw [hlocs6]; exact hj5)
        refine ((hset.append_right _).trans ?_)
        rw [List.append_assoc]
        exact hperm.append_left _
      · intro i
        refine le_trans ?_ (hmono i)
        by_cases hij : i = 1 + rl.headD 0 % 5
        · have hilt : 1 + rl.headD 0 % 5 < locs.length := by
            rw [hlocs6]; exact hj5
          rw [hij]
          simp only [List.getD_eq_getElem?_getD, List.getElem?_set_self hilt,
            List.getElem?_eq_getElem hilt, Option.getD_some, addItemTo]
          simp
        · simp only [List.getD_eq_getElem?_getD,
            List.getElem?_set_ne (fun hx => hij hx.symm)]
          exact le_rfl

/-- Reading a location name through the name-layout equation. -/
theorem name_at_of_map_eq {locs : List Location}
    (hn : locs.map Location.name = LOC_NAMES) {i : Nat} (hi : i < locs.length) :
    (locs[i]).name = LOC_NAMES.getD i default := by
  have hsome : (locs.map Location.name)[i]? = LOC_NAMES[i]? := by rw [hn]
  rw [List.getElem?_map, List.getElem?_eq_getElem hi] at hsome
  rw [List.getD_eq_getElem?_getD, ← hsome]
  rfl

/-- In a list laid out like LOC_NAMES, the only location named Cauldron is
the one in front. -/
theorem cauldron_index {locs : List Location}
    (hn : locs.map Location.name = LOC_NAMES) :
    ∀ loc ∈ locs, loc.name = "Cauldron" → loc = locs.getD 0 default := by
  intro loc hloc hname
  rcases List.getElem_of_mem hloc with ⟨i, hi, rfl⟩
  have h6 : locs.length = 6 := by
    have := congrArg List.length hn
    simpa using this
  have hcau : ∀ k, k < 6 → LOC_NAMES.getD k default = "Cauldron" → k = 0 := by
    decide
  have hi0 : i = 0 := hcau i (by omega) (by rw [← name_at_of_map_eq hn hi]; exact hname)
  subst hi0
  simp [List.getD_eq_getElem?_getD, List.getElem?_eq_getElem hi]

/-- Claim C8: create_map assigns every found-tier item of the book to exactly
one non-home location (the placed items are a permutation of the found items
and the Cauldron holds none), and every non-Cauldron location ends with at
least floor(F / 5) items, F being the found-item count and 5 the non-home
location count; the F mod 5 remainder items land on some non-home
locations. -/
theorem c8_distribution (book : RecipeBook) (ri rl : List Nat)
    (hnd : ((foundItems book).map Item.name).Nodup) :
    ∃ locs, create_map book ri rl = some locs ∧
      locs.map Location.name = LOC_NAMES ∧
      (∀ loc ∈ locs, loc.name = "Cauldron" → loc.items = none) ∧
      (joinItems locs).Perm (foundItems book) ∧
      (∀ loc ∈ locs, loc.name ≠ "Cauldron" →
        (foundItems book).length / 5 ≤ (loc.items.getD []).length) := by
  have h5 : LOC_NAMES.length - 1 = 5 := rfl
  have hcnt : (LOC_NAMES.countP fun n => n ≠ "Cauldron") = 5 := by decide
  have hle : (LOC_NAMES.countP fun n => n ≠ "Cauldron") *
      ((foundItems book).length / (LOC_NAMES.length - 1)) ≤
      (foundItems book).length := by
    rw [hcnt, h5, Nat.mul_comm]
    exact Nat.div_mul_le_self _ 5
  rcases fillLocations_exists LOC_NAMES (foundItems book) ri
      ((foundItems book).length / (LOC_NAMES.length - 1)) hnd hle with
    ⟨locs1, rest, rs', hfill, hnames1, hC1, hNC1, hperm1, hndr, hlen1⟩
  have hrest : (foundItems book).length % (LOC_NAMES.length - 1) = rest.length := by
    rw [hcnt, h5] at hlen1
    rw [h5]
    have := Nat.div_add_mod (foundItems book).length 5
    omega
  have hlen6 : locs1.length = 6 := by
    have := congrArg List.length hnames1
    simpa using this
  have h0lt : 0 < locs1.length := by omega
  have hP0 : (locs1.getD 0 default).items = none := by
    have hgd0 : locs1.getD 0 default = locs1[0] := by
      simp [List.getD_eq_getElem?_getD, List.getElem?_eq_getElem h0lt]
    rw [hgd0]
    refine hC1 _ (List.getElem_mem h0lt) ?_
    rw [name_at_of_map_eq hnames1 h0lt]
    rfl
  rcases placeLeftovers_exists rest.length rest locs1 rl rs' rfl hndr hnames1 with
    ⟨locs', hplace, hnames', hP0', hperm2, hmono⟩
  refine ⟨locs', ?_, hnames', ?_, hperm2.trans hperm1, ?_⟩
  · simp only [create_map]
    rw [hfill]
    simp only [Option.some_bind]
    rw [hrest]
    exact hplace
  · intro loc hloc hname
    rw [cauldron_index hnames' loc hloc hname, hP0', hP0]
  · intro loc hloc hname
    rcases List.getElem_of_mem hloc with ⟨i, hi, rfl⟩
    have hlen6' : locs'.length = 6 := by
      have := congrArg List.length hnames'
      simpa using this
    have hi1 : i < locs1.length := by omega
    have hnm : (locs1[i]).name = (locs'[i]).name := by
      rw [name_at_of_map_eq hnames1 hi1, name_at_of_map_eq hnames' hi]
    rcases hNC1 locs1[i] (List.getElem_mem hi1) (by rw [hnm]; exact hname) with
      ⟨l, hl, hllen⟩
    have hmi := hmono i
    have hgd1 : locs1.getD i default = locs1[i] := by
      simp [List.getD_eq_getElem?_getD, List.getElem?_eq_getElem hi1]
    have hgd2 : locs'.getD i default = locs'[i] := by
      simp [List.getD_eq_getElem?_getD, List.getElem?_eq_getElem hi]
    rw [hgd1, hgd2, hl] at hmi
    simp only [Option.getD_some] at hmi
    rw [← h5, ← hllen]
    exact hmi

/-- Witness for C8: the concrete book of the all-zero run, whose nine found
items have pairwise distinct names. -/
theorem c8_distribution_witness :
    ∃ locs, create_map book0 [] [] = some locs ∧
      locs.map Location.name = LOC_NAMES ∧
      (∀ loc ∈ locs, loc.name = "Cauldron" → loc.items = none) ∧
      (joinItems locs).Perm (foundItems book0) ∧
      (∀ loc ∈ locs, loc.name ≠ "Cauldron" →
        (foundItems book0).length / 5 ≤ (loc.items.getD []).length) :=
  c8_distribution book0 [] [] (by decide)

end WorkWitch
